import Mathlib

/-!
Verification of the 365moments compilation pipeline.

The definitions below are a shallow embedding of the repository's
`videoCompiler.js` (the `VideoCompiler` class) and of the job-tracking
part of `server.js` (the `/api/compile` handlers).  External
collaborators (the Drive store, the filesystem, the ffmpeg binary) are
represented by explicit inputs and boolean oracles; machine behaviour of
the ffmpeg CLI is captured by a small interpreter of the flags the
repository actually uses.
-/

/-! ## String utilities (models of the JS regexes and string operations) -/

/-- Lexicographic strict order on character lists: model of JS string
comparison (`<`) and of the ordering underlying `localeCompare` for the
ASCII filenames used by the repository. -/
def lexLt : List Char → List Char → Bool
  | _, [] => false
  | [], _ :: _ => true
  | a :: as, b :: bs => if a = b then lexLt as bs else decide (a < b)

/-- Lexicographic `≤` on character lists: model of JS `>=`/`<=` string
comparison used for the date-range filter and of the sort comparator. -/
def lexLe : List Char → List Char → Bool
  | [], _ => true
  | _ :: _, [] => false
  | a :: as, b :: bs => if a = b then lexLe as bs else decide (a < b)

/-- Shape test for the ten leading characters `YYYY-MM-DD`, the model of
the regex fragment `\d{4}-\d{2}-\d{2}`. -/
def dateShape (cs : List Char) : Bool :=
  match cs with
  | [y1, y2, y3, y4, s1, m1, m2, s2, d1, d2] =>
    y1.isDigit && y2.isDigit && y3.isDigit && y4.isDigit &&
    (s1 == '-') && m1.isDigit && m2.isDigit && (s2 == '-') && d1.isDigit && d2.isDigit
  | _ => false

/-- Model of `name.match(/^(\d{4}-\d{2}-\d{2})/)`: the date prefix of a
filename, if the first ten characters have the `YYYY-MM-DD` shape. -/
def extractDate (name : String) : Option String :=
  let cs := name.toList
  if dateShape (cs.take 10) then some (String.mk (cs.take 10)) else none

/-- Model of the extension alternative `\.(mp4|webm|jpg|jpeg|png)$` with
the `i` flag (case-insensitive). -/
def isAllowedExt (cs : List Char) : Bool :=
  match cs with
  | '.' :: rest => ["mp4", "webm", "jpg", "jpeg", "png"].contains (String.mk (rest.map Char.toLower))
  | _ => false

/-- Model of `/^\d{4}-\d{2}-\d{2}\.(mp4|webm|jpg|jpeg|png)$/i.test(name)`. -/
def clipNamePattern (name : String) : Bool :=
  let cs := name.toList
  dateShape (cs.take 10) && isAllowedExt (cs.drop 10)

/-- Model of JS `String.prototype.includes`. -/
def containsSub (pat s : String) : Bool :=
  let p := pat.toList
  let cs := s.toList
  (List.range (cs.length + 1)).any (fun i => p.isPrefixOf (cs.drop i))

/-- The file filter of `fetchClipsList`:
`datePattern.test(file.name) && !file.name.includes(".thumb.")`. -/
def validClipName (name : String) : Bool :=
  clipNamePattern name && !(containsSub ".thumb." name)

/-- Model of `String(i).padStart(4, "0")`. -/
def pad4 (n : Nat) : String :=
  let s := toString n
  String.mk (List.replicate (4 - s.length) '0') ++ s

/-- Model of `path.join(dir, name)`. -/
def pathJoin (dir name : String) : String := dir ++ "/" ++ name

/-- Whether a string begins with the option-introducing dash; file path
arguments handed to the encoder never do. -/
def startsDash (s : String) : Bool :=
  match s.toList with
  | '-' :: _ => true
  | _ => false

/-! ## Data model: remote files as listed by the store -/

/-- One entry of the Drive listing consumed by `fetchClipsList`
(fields `id, name, mimeType, createdTime, modifiedTime`).  Timestamps
are modelled as milliseconds (`new Date(x).getTime()`); a missing or
empty (falsy) timestamp string is `none`. -/
structure RemoteFile where
  id : String
  name : String
  mimeType : String
  modifiedTime : Option Nat
  createdTime : Option Nat
deriving Repr, DecidableEq

/-- Model of `new Date(file.modifiedTime || file.createdTime || 0)`,
the timestamp used for duplicate resolution. -/
def effTime (f : RemoteFile) : Nat :=
  f.modifiedTime.getD (f.createdTime.getD 0)

/-! ## Association lists with JS `Map` semantics -/

/-- `Map.prototype.get`. -/
def lookupA {α : Type} : List (String × α) → String → Option α
  | [], _ => none
  | (k, v) :: rest, key => if k = key then some v else lookupA rest key

/-- `Map.prototype.set`: replace in place when the key exists, append
otherwise (JS maps preserve first-insertion order of keys). -/
def setA {α : Type} : List (String × α) → String → α → List (String × α)
  | [], key, v => [(key, v)]
  | (k, w) :: rest, key, v => if k = key then (key, v) :: rest else (k, w) :: setA rest key v

/-- `Map.prototype.delete`. -/
def deleteA {α : Type} : List (String × α) → String → List (String × α)
  | [], _ => []
  | (k, w) :: rest, key => if k = key then rest else (k, w) :: deleteA rest key

/-! ## Catalog builder: `VideoCompiler.fetchClipsList` -/

/-- One step of the duplicate-resolution loop of `fetchClipsList`:
extract the date key and keep the candidate when
`candidateTime >= existingTime`. -/
def dedupStep (m : List (String × RemoteFile)) (f : RemoteFile) : List (String × RemoteFile) :=
  match extractDate f.name with
  | none => m
  | some key =>
    match lookupA m key with
    | none => setA m key f
    | some existing => if effTime existing ≤ effTime f then setA m key f else m

/-- Insertion step of the final `sort((a, b) => a.name.localeCompare(b.name))`. -/
def insertByName (f : RemoteFile) : List RemoteFile → List RemoteFile
  | [] => [f]
  | g :: gs => if lexLe f.name.toList g.name.toList then f :: g :: gs else g :: insertByName f gs

/-- Sorting by filename, the model of the final `Array.prototype.sort`
with the `localeCompare` comparator. -/
def sortByName (l : List RemoteFile) : List RemoteFile :=
  l.foldr insertByName []

/-- `VideoCompiler.fetchClipsList`, given the raw listing returned by
the store: keep canonical `YYYY-MM-DD.ext` names, resolve duplicate
dates keeping the candidate whenever its timestamp is `>=` the held
one, and sort the surviving values by name.  The function is total: a
discarded duplicate only produces a diagnostic log line in the source,
never an error. -/
def fetchClipsList (files : List RemoteFile) : List RemoteFile :=
  let filtered := files.filter (fun f => validClipName f.name)
  let dedup := filtered.foldl dedupStep []
  sortByName (dedup.map Prod.snd)

/-! ## Date-range filter of `VideoCompiler.compile` -/

/-- The catalog actually used by `compile`: the fetched list, filtered
by `date >= startDate && date <= endDate` only when
`startDate && endDate` is truthy in JS (both present and non-empty). -/
def compileCatalog (files : List RemoteFile) (startDate endDate : Option String) :
    List RemoteFile :=
  let clips := fetchClipsList files
  match startDate, endDate with
  | some s, some e =>
    if s.isEmpty || e.isEmpty then clips
    else
      clips.filter (fun c =>
        match extractDate c.name with
        | none => false
        | some d => lexLe s.toList d.toList && lexLe d.toList e.toList)
  | _, _ => clips

/-- `this.minClips` from the `VideoCompiler` constructor: 7 when
`NODE_ENV === "production"`, 2 otherwise. -/
def minClips (isProd : Bool) : Nat := if isProd then 7 else 2

/-! ## Specification-side description of duplicate resolution -/

/-- Declarative statement of the duplicate policy: `f` is the survivor
of the list `l` when every earlier element has timestamp `≤` and every
later element has timestamp strictly `<` (latest timestamp wins, exact
ties resolved in favour of the element seen later in list order). -/
def IsLatestKept (l : List RemoteFile) (f : RemoteFile) : Prop :=
  ∃ l₁ l₂, l = l₁ ++ f :: l₂ ∧
    (∀ g ∈ l₁, effTime g ≤ effTime f) ∧ (∀ g ∈ l₂, effTime g < effTime f)

/-- The per-date group of a listing: the validly named files whose
extracted date is `d`, in list order. -/
def groupOf (files : List RemoteFile) (d : String) : List RemoteFile :=
  (files.filter (fun f => validClipName f.name)).filter
    (fun f => decide (extractDate f.name = some d))

/-- Fold step computing the survivor of a group (mirrors the
`candidateTime >= existingTime` comparison). -/
def latestStep (acc : Option RemoteFile) (f : RemoteFile) : Option RemoteFile :=
  match acc with
  | none => some f
  | some e => if effTime e ≤ effTime f then some f else some e

/-- Survivor of a list of files under the duplicate-resolution fold. -/
def lastMaxFold (l : List RemoteFile) : Option RemoteFile :=
  l.foldl latestStep none

/-! ## Media file-name transformations used by `downloadClips` -/

/-- Model of `/\.(jpg|jpeg|png)$/i.test(clip.name)`. -/
def isImageName (name : String) : Bool :=
  let low := name.toLower
  low.endsWith ".jpg" || low.endsWith ".jpeg" || low.endsWith ".png"

/-- Model of `downloadPath.replace(/\.(jpg|jpeg|png)$/i, ".mp4")`. -/
def replaceImageExt (p : String) : String :=
  let low := p.toLower
  if low.endsWith ".jpeg" then p.dropRight 5 ++ ".mp4"
  else if low.endsWith ".jpg" then p.dropRight 4 ++ ".mp4"
  else if low.endsWith ".png" then p.dropRight 4 ++ ".mp4"
  else p

/-- Model of `downloadPath.replace(/\.(mp4|webm)$/i, "-norm.mp4")`. -/
def replaceVideoExt (p : String) : String :=
  let low := p.toLower
  if low.endsWith ".webm" then p.dropRight 5 ++ "-norm.mp4"
  else if low.endsWith ".mp4" then p.dropRight 4 ++ "-norm.mp4"
  else p

/-- Local path of the file downloaded for clip index `i`:
`path.join(sessionDir, String(i).padStart(4, "0") + "-" + clip.name)`. -/
def downloadPathOf (sess : String) (i : Nat) (c : RemoteFile) : String :=
  pathJoin sess (pad4 i ++ "-" ++ c.name)

/-- Local path of the normalized 1-second segment produced for clip
index `i` (image branch and video branch of `downloadClips`). -/
def localSegName (sess : String) (i : Nat) (c : RemoteFile) : String :=
  if isImageName c.name then replaceImageExt (downloadPathOf sess i c)
  else replaceVideoExt (downloadPathOf sess i c)

/-- A single quote character, used by the ffmpeg concat list syntax. -/
def squote : String := String.singleton (Char.ofNat 39)

/-- One line of `filelist.txt`: the template `file o${f}o` with `o` the
single-quote character. -/
def fileEntry (f : String) : String := "file " ++ squote ++ f ++ squote

/-! ## Compilation engine: `VideoCompiler.compile` -/

/-- Observable side effects of one compilation run, in order. -/
inductive Effect
  | mkdirSession
  | fetchList
  | download (i : Nat) (name : String)
  | convertImage (i : Nat)
  | normalize (i : Nat)
  | writeFileList (entries : List String)
  | saveMusic
  | concat (useMusic : Bool) (entries : List String)
  | upload (name : String)
  | cleanup
deriving Repr, DecidableEq

/-- Failures a run can surface (the source throws `Error` objects with
message strings; each constructor stands for one throw site). -/
inductive CompileError
  | fetchFailed
  | emptyRange
  | insufficientClips (need found : Nat)
  | downloadFailed (i : Nat)
  | normalizeFailed (i : Nat)
  | concatFailed
  | uploadFailed
deriving Repr, DecidableEq

/-- The success value of `compile`. -/
structure CompileResult where
  fileId : String
  fileName : String
  clipCount : Nat
deriving Repr, DecidableEq

/-- Oracles for the external collaborators touched during a run (Drive
calls, the filesystem and the ffmpeg subprocesses): `true` means the
call succeeds. -/
structure Env where
  fetchOk : Bool
  downloadOk : Nat → Bool
  normalizeOk : Nat → Bool
  musicSaveOk : Bool
  musicExists : Bool
  concatOk : Bool
  uploadOk : Bool
  uploadedId : String

/-- Model of `date.split("-").reverse().join("-")`. -/
def formatForDisplay (d : String) : String :=
  String.intercalate "-" (d.splitOn "-").reverse

/-- The generated output filename, with the timestamp string `ts`
standing for the formatted `new Date()` value. -/
def outputFileName (startDate endDate : Option String) (ts : String) : String :=
  match startDate, endDate with
  | some sd, some ed =>
    if sd.isEmpty || ed.isEmpty then "365moments-compilation_" ++ ts ++ ".mp4"
    else
      "365moments_" ++ formatForDisplay sd ++ "_to_" ++ formatForDisplay ed ++ "_" ++ ts ++ ".mp4"
  | _, _ => "365moments-compilation_" ++ ts ++ ".mp4"

/-- `VideoCompiler.downloadClips`, from index `i`: download each clip
sequentially, convert images to 1-second videos and normalize videos to
1-second segments, accumulating the produced local paths in order.  A
failure of any step aborts the whole loop. -/
def downloadClipsGo (env : Env) (sess : String) :
    Nat → List RemoteFile → Except CompileError (List String) × List Effect
  | _, [] => (Except.ok [], [])
  | i, c :: rest =>
    if env.downloadOk i = false then
      (Except.error (CompileError.downloadFailed i), [Effect.download i c.name])
    else if isImageName c.name then
      if env.normalizeOk i = false then
        (Except.error (CompileError.normalizeFailed i),
         [Effect.download i c.name, Effect.convertImage i])
      else
        match downloadClipsGo env sess (i + 1) rest with
        | (r, tr) =>
          (r.map (fun l => localSegName sess i c :: l),
           Effect.download i c.name :: Effect.convertImage i :: tr)
    else
      if env.normalizeOk i = false then
        (Except.error (CompileError.normalizeFailed i),
         [Effect.download i c.name, Effect.normalize i])
      else
        match downloadClipsGo env sess (i + 1) rest with
        | (r, tr) =>
          (r.map (fun l => localSegName sess i c :: l),
           Effect.download i c.name :: Effect.normalize i :: tr)

/-- `VideoCompiler.downloadClips` starting at index 0. -/
def downloadClips (env : Env) (sess : String) (clips : List RemoteFile) :
    Except CompileError (List String) × List Effect :=
  downloadClipsGo env sess 0 clips

/-- Body of the `try` block of `VideoCompiler.compile`: fetch the
catalog, apply the range filter, reject empty and undersized catalogs,
download and normalize every clip, write the concat list, persist the
music track when given (`saveMusicFromBase64` returns `null` on
failure, which is not an error), concatenate and upload. -/
def compileBody (env : Env) (sess ts : String) (files : List RemoteFile)
    (startDate endDate : Option String) (isProd : Bool) (musicData : Option String) :
    Except CompileError CompileResult × List Effect :=
  if env.fetchOk = false then (Except.error CompileError.fetchFailed, [Effect.fetchList])
  else
    let clips := compileCatalog files startDate endDate
    if clips.length = 0 then (Except.error CompileError.emptyRange, [Effect.fetchList])
    else if clips.length < minClips isProd then
      (Except.error (CompileError.insufficientClips (minClips isProd) clips.length),
       [Effect.fetchList])
    else
      match downloadClips env sess clips with
      | (Except.error e, tr) => (Except.error e, Effect.fetchList :: tr)
      | (Except.ok localFiles, tr) =>
        let entries := localFiles.map fileEntry
        let trW := Effect.fetchList :: tr ++ [Effect.writeFileList entries]
        let musicPath : Option String :=
          match musicData with
          | none => none
          | some _ => if env.musicSaveOk then some (pathJoin sess "music.mp3") else none
        let trM := match musicData with
          | none => trW
          | some _ => trW ++ [Effect.saveMusic]
        let useMusic := match musicPath with
          | none => false
          | some _ => env.musicExists
        let trC := trM ++ [Effect.concat useMusic entries]
        if env.concatOk = false then (Except.error CompileError.concatFailed, trC)
        else
          let name := outputFileName startDate endDate ts
          let trU := trC ++ [Effect.upload name]
          if env.uploadOk = false then (Except.error CompileError.uploadFailed, trU)
          else
            (Except.ok { fileId := env.uploadedId, fileName := name, clipCount := clips.length },
             trU)

/-- `VideoCompiler.compile`: create the session workspace, run the
body, and call `this.cleanup(sessionDir)` both on the success path and
in the `catch` block before re-throwing. -/
def compile (env : Env) (sess ts : String) (files : List RemoteFile)
    (startDate endDate : Option String) (isProd : Bool) (musicData : Option String) :
    Except CompileError CompileResult × List Effect :=
  match compileBody env sess ts files startDate endDate isProd musicData with
  | (Except.ok r, tr) => (Except.ok r, Effect.mkdirSession :: tr ++ [Effect.cleanup])
  | (Except.error e, tr) => (Except.error e, Effect.mkdirSession :: tr ++ [Effect.cleanup])

/-- The clip downloads recorded in a trace, in order. -/
def downloadNames : List Effect → List (Nat × String)
  | [] => []
  | Effect.download i n :: rest => (i, n) :: downloadNames rest
  | _ :: rest => downloadNames rest

/-- The first concatenation recorded in a trace: whether the music
branch was taken and the file-list entries passed to it. -/
def concatEntries : List Effect → Option (Bool × List String)
  | [] => none
  | Effect.concat u es :: _ => some (u, es)
  | _ :: rest => concatEntries rest

/-! ## ffmpeg invocations -/

/-- The scale-and-letterbox filter string built by the source:
`scale=W:H:force_original_aspect_ratio=decrease,pad=W:H:(ow-iw)/2:(oh-ih)/2:black`. -/
def scalePadFilter (w h : Nat) : String :=
  "scale=" ++ toString w ++ ":" ++ toString h ++
  ":force_original_aspect_ratio=decrease,pad=" ++ toString w ++ ":" ++ toString h ++
  ":(ow-iw)/2:(oh-ih)/2:black"

/-- Argument list of `normalizeVideoToOneSecond` (defaults
`width = 1920`, `height = 1080`). -/
def normalizeVideoArgs (inputPath outputPath : String) (width height : Nat) : List String :=
  ["-i", inputPath,
   "-t", "1",
   "-vf", scalePadFilter width height ++ ",setsar=1",
   "-c:v", "libx264",
   "-preset", "fast",
   "-crf", "23",
   "-c:a", "aac",
   "-b:a", "128k",
   "-r", "30",
   "-pix_fmt", "yuv420p",
   "-y", outputPath]

/-- Argument list of `convertImageToVideo` (defaults
`width = 1920`, `height = 1080`). -/
def convertImageArgs (imagePath outputPath : String) (width height : Nat) : List String :=
  ["-loop", "1",
   "-i", imagePath,
   "-c:v", "libx264",
   "-t", "1",
   "-pix_fmt", "yuv420p",
   "-vf", scalePadFilter width height,
   "-r", "30",
   "-y", outputPath]

/-- The music-free argument list of `concatenateVideos`. -/
def concatNoMusicArgs (listFile outputPath : String) : List String :=
  ["-f", "concat",
   "-safe", "0",
   "-i", listFile,
   "-vf", scalePadFilter 1920 1080 ++ ",setsar=1",
   "-c:v", "libx264",
   "-preset", "fast",
   "-crf", "23",
   "-c:a", "aac",
   "-b:a", "128k",
   "-movflags", "+faststart",
   "-y", outputPath]

/-- Argument list of `concatenateVideos`: the music branch is taken
only when a music path was produced and `fs.existsSync(musicPath)`
holds (`musicExists` models the latter). -/
def concatenateVideosArgs (listFile outputPath : String) (musicPath : Option String)
    (musicExists : Bool) : List String :=
  match musicPath with
  | some mp =>
    if musicExists then
      ["-f", "concat",
       "-safe", "0",
       "-i", listFile,
       "-stream_loop", "-1",
       "-i", mp,
       "-vf", scalePadFilter 1920 1080 ++ ",setsar=1",
       "-map", "0:v",
       "-map", "1:a",
       "-c:v", "libx264",
       "-preset", "fast",
       "-crf", "23",
       "-c:a", "aac",
       "-b:a", "192k",
       "-shortest",
       "-movflags", "+faststart",
       "-y", outputPath]
    else concatNoMusicArgs listFile outputPath
  | none => concatNoMusicArgs listFile outputPath

/-! ## Interpretation of the ffmpeg flags used by the repository

ffmpeg is an external collaborator; the following small interpreter
captures the documented meaning of exactly the flags the source passes:
`-t` caps the output duration (a looped still image lasts the full
`-t`), a leading `scale=W:H` video filter fixes the output resolution,
`-r` fixes the frame rate, `-pix_fmt` the pixel format, and the output
has an audio stream only if some input supplies one (`-c:a` selects an
encoder for existing audio, it never synthesizes a track; a silent
track would require a `lavfi` null source, which the source never
creates) and `-an` does not drop it. -/

/-- First value following an occurrence of `flag`. -/
def argValue (args : List String) (flag : String) : Option String :=
  match args with
  | [] => none
  | a :: rest => if a = flag then rest.head? else argValue rest flag

/-- Whether `flag` occurs among the arguments. -/
def hasFlag (args : List String) (flag : String) : Bool :=
  match args with
  | [] => false
  | a :: rest => if a = flag then true else hasFlag rest flag

/-- All values following occurrences of `flag`, in order. -/
def flagValues (args : List String) (flag : String) : List String :=
  match args with
  | [] => []
  | a :: rest =>
    if a = flag then
      match rest with
      | [] => []
      | b :: rest2 => b :: flagValues rest2 flag
    else flagValues rest flag

/-- Digits-to-number helper for the filter parser. -/
def digitsToNat (l : List Char) : Nat :=
  l.foldl (fun n c => n * 10 + (c.toNat - 48)) 0

/-- Parse a whole decimal numeral string. -/
def parseNatStr (s : String) : Option Nat :=
  let cs := s.toList
  if cs.isEmpty then none
  else if cs.all Char.isDigit then some (digitsToNat cs) else none

/-- Parse a leading run of digits. -/
def parseNatChunk (s : List Char) : Option (Nat × List Char) :=
  let ds := s.takeWhile Char.isDigit
  if ds.isEmpty then none else some (digitsToNat ds, s.dropWhile Char.isDigit)

/-- Extract `W` and `H` from a filter string starting with `scale=W:H:`. -/
def parseScaleDims (vf : String) : Option (Nat × Nat) :=
  let cs := vf.toList
  let pre := "scale=".toList
  if pre.isPrefixOf cs then
    match parseNatChunk (cs.drop pre.length) with
    | none => none
    | some (w, rest) =>
      match rest with
      | ':' :: rest2 =>
        match parseNatChunk rest2 with
        | none => none
        | some (h, _) => some (w, h)
      | _ => none
  else none

/-- Properties of a media stream bundle relevant to the claims. -/
structure MediaProps where
  duration : Nat
  width : Nat
  height : Nat
  fps : Nat
  pixFmt : String
  hasAudio : Bool
deriving Repr, DecidableEq

/-- Output properties of an ffmpeg run over a single source `src` with
the given argument list, for the flag subset used by the repository. -/
def interpFfmpeg (args : List String) (src : MediaProps) : MediaProps :=
  let tDur := match argValue args "-t" with
    | none => none
    | some s => parseNatStr s
  let dur := match tDur with
    | none => src.duration
    | some n => if hasFlag args "-loop" then n else min src.duration n
  let dims := match argValue args "-vf" with
    | none => none
    | some vf => parseScaleDims vf
  let w := (dims.map Prod.fst).getD src.width
  let h := (dims.map Prod.snd).getD src.height
  let fps := match argValue args "-r" with
    | none => src.fps
    | some s => (parseNatStr s).getD src.fps
  let pf := (argValue args "-pix_fmt").getD src.pixFmt
  let audio := (src.hasAudio || hasFlag args "lavfi") && !(hasFlag args "-an")
  { duration := dur, width := w, height := h, fps := fps, pixFmt := pf, hasAudio := audio }

/-! ## Job tracker: the `/api/compile` handlers of `server.js` -/

/-- One entry of the global `compilationJobs` map. -/
structure Job where
  id : String
  status : String
  progress : String
  startDate : Option String
  endDate : Option String
  startedAt : String
  clipCount : Nat
  error : Option String
  result : Option CompileResult
deriving Repr, DecidableEq

/-- The three ways the `POST /api/compile` handler can answer before
any work happens. -/
inductive SubmitOutcome
  | alreadyCompiling (jobId : String)
  | ffmpegMissing
  | started (jobId : String)
deriving Repr, DecidableEq

/-- Result of one admission attempt: the HTTP answer, the job map after
the handler ran, and whether a background compilation run was
launched. -/
structure SubmitState where
  outcome : SubmitOutcome
  jobs : List (String × Job)
  runStarted : Bool
deriving Repr, DecidableEq

/-- The fresh job record created by the handler
(`status: "compiling", progress: "Starting...", clipCount: 0`). -/
def newJob (jobId : String) (s e : Option String) (now : String) : Job :=
  { id := jobId, status := "compiling", progress := "Starting...",
    startDate := s, endDate := e, startedAt := now,
    clipCount := 0, error := none, result := none }

/-- Admission logic of `POST /api/compile`: reject with
`already_compiling` when the tracked job of `userId` has status
`"compiling"`, reject when no ffmpeg binary is available, otherwise
store a fresh `"compiling"` job under `userId` and launch the
background run. -/
def submitCompile (jobs : List (String × Job)) (userId : String) (ffmpegAvailable : Bool)
    (jobId : String) (s e : Option String) (now : String) : SubmitState :=
  let proceed : SubmitState :=
    if ffmpegAvailable = false then
      { outcome := SubmitOutcome.ffmpegMissing, jobs := jobs, runStarted := false }
    else
      { outcome := SubmitOutcome.started jobId,
        jobs := setA jobs userId (newJob jobId s e now), runStarted := true }
  match lookupA jobs userId with
  | some existing =>
    if existing.status = "compiling" then
      { outcome := SubmitOutcome.alreadyCompiling existing.id, jobs := jobs,
        runStarted := false }
    else proceed
  | none => proceed

/-- `GET /api/compile/status`: a pure read of the tracked job. -/
def getCompileStatus (jobs : List (String × Job)) (userId : String) : Option Job :=
  lookupA jobs userId

/-- `DELETE /api/compile/status`: drop the tracked job. -/
def clearCompileStatus (jobs : List (String × Job)) (userId : String) :
    List (String × Job) :=
  deleteA jobs userId

/-! ## Derived descriptions of successful runs -/

/-- The local segment paths produced by `downloadClips` from index `i`
when every download and normalization succeeds. -/
def segNames (sess : String) : Nat → List RemoteFile → List String
  | _, [] => []
  | i, c :: rest => localSegName sess i c :: segNames sess (i + 1) rest

/-- The effect trace produced by `downloadClips` from index `i` when
every download and normalization succeeds. -/
def clipTrace : Nat → List RemoteFile → List Effect
  | _, [] => []
  | i, c :: rest =>
    Effect.download i c.name ::
      (if isImageName c.name then Effect.convertImage i else Effect.normalize i) ::
      clipTrace (i + 1) rest

/-- The indexed clip names, in processing order. -/
def clipNames : Nat → List RemoteFile → List (Nat × String)
  | _, [] => []
  | i, c :: rest => (i, c.name) :: clipNames (i + 1) rest

/-- The `filelist.txt` lines of a successful run. -/
def entriesOf (sess : String) (clips : List RemoteFile) : List String :=
  (segNames sess 0 clips).map fileEntry

/-- The music-save effect contributed by a run, if any. -/
def musicSaveTrace : Option String → List Effect
  | none => []
  | some _ => [Effect.saveMusic]

/-- Whether the concatenation takes the music branch: a track was
supplied, saving it succeeded, and the saved file exists. -/
def musicUsed (env : Env) : Option String → Bool
  | none => false
  | some _ => env.musicSaveOk && env.musicExists

/-- Strict calendar order between catalog entries, compared on the
zero-padded ISO date strings extracted from the filenames. -/
def dateLtProp (a b : RemoteFile) : Prop :=
  ∀ da db, extractDate a.name = some da → extractDate b.name = some db →
    lexLt da.toList db.toList = true

/-- A concrete running job record. -/
def jobRunning : Job :=
  { id := "J1", status := "compiling", progress := "Fetching clips...",
    startDate := none, endDate := none, startedAt := "t0",
    clipCount := 0, error := none, result := none }

/-- A concrete tracked map with a running job for user `alice`. -/
def jobsRunning : List (String × Job) := [("alice", jobRunning)]

/-- An environment in which every external call succeeds. -/
def envAllOk : Env :=
  { fetchOk := true, downloadOk := fun _ => true, normalizeOk := fun _ => true,
    musicSaveOk := true, musicExists := true, concatOk := true, uploadOk := true,
    uploadedId := "drive-id" }

/-! # Lemmas and claim theorems -/

/-! ## Association-list facts -/

theorem lookupA_setA_self {α : Type} (m : List (String × α)) (k : String) (v : α) :
    lookupA (setA m k v) k = some v := by
  induction m with
  | nil => simp [setA, lookupA]
  | cons p rest ih =>
    obtain ⟨k₁, w⟩ := p
    by_cases h : k₁ = k
    · subst h; simp [setA, lookupA]
    · simp [setA, lookupA, h, ih]

theorem lookupA_setA_ne {α : Type} (m : List (String × α)) (k k' : String) (v : α)
    (h : k' ≠ k) : lookupA (setA m k v) k' = lookupA m k' := by
  induction m with
  | nil => simp [setA, lookupA, Ne.symm h]
  | cons p rest ih =>
    obtain ⟨k₁, w⟩ := p
    by_cases h1 : k₁ = k
    · subst h1
      simp [setA, lookupA, Ne.symm h]
    · simp only [setA, if_neg h1, lookupA]
      by_cases h2 : k₁ = k'
      · simp [h2]
      · simp [h2, ih]

theorem mem_keys_setA {α : Type} (m : List (String × α)) (k x : String) (v : α) :
    x ∈ (setA m k v).map Prod.fst ↔ x ∈ m.map Prod.fst ∨ x = k := by
  induction m with
  | nil => simp [setA]
  | cons p rest ih =>
    obtain ⟨k₁, w⟩ := p
    by_cases h : k₁ = k
    · subst h; simp [setA]; tauto
    · simp [setA, h, ih]; tauto

theorem nodup_keys_setA {α : Type} (m : List (String × α)) (k : String) (v : α)
    (h : (m.map Prod.fst).Nodup) : ((setA m k v).map Prod.fst).Nodup := by
  induction m with
  | nil => simp [setA]
  | cons p rest ih =>
    obtain ⟨k₁, w⟩ := p
    simp only [List.map_cons, List.nodup_cons] at h
    by_cases hk : k₁ = k
    · subst hk
      simpa [setA, List.nodup_cons] using h
    · simp only [setA, if_neg hk, List.map_cons, List.nodup_cons]
      refine ⟨?_, ih h.2⟩
      rw [mem_keys_setA]
      rintro (hmem | hEq)
      · exact h.1 hmem
      · exact hk hEq

theorem keys_deleteA_sublist {α : Type} (m : List (String × α)) (k : String) :
    List.Sublist ((deleteA m k).map Prod.fst) (m.map Prod.fst) := by
  induction m with
  | nil => simp [deleteA]
  | cons p rest ih =>
    obtain ⟨k₁, w⟩ := p
    by_cases h : k₁ = k
    · simp only [deleteA, if_pos h, List.map_cons]
      exact List.Sublist.cons _ (List.Sublist.refl _)
    · simp only [deleteA, if_neg h, List.map_cons]
      exact ih.cons₂ _

theorem nodup_keys_deleteA {α : Type} (m : List (String × α)) (k : String)
    (h : (m.map Prod.fst).Nodup) : ((deleteA m k).map Prod.fst).Nodup :=
  h.sublist (keys_deleteA_sublist m k)

/-! ## Claim C2: single tracked job per user -/

/-- C2: submitting a compilation while the user's tracked job has the
running status (`"compiling"`) returns the already-running rejection
carrying the existing job id, leaves the job map unchanged (so the
existing record stays and no second record is created) and launches no
second background run; moreover both map-changing operations (`submit`
and `clear`) preserve key uniqueness, so at most one job is ever
tracked per user identity. -/
theorem submit_while_running_rejected (jobs : List (String × Job)) (uid jid now : String)
    (av : Bool) (s e : Option String) (j : Job)
    (hj : lookupA jobs uid = some j) (hs : j.status = "compiling") :
    submitCompile jobs uid av jid s e now =
      { outcome := SubmitOutcome.alreadyCompiling j.id, jobs := jobs, runStarted := false }
  ∧ (∀ (jobs2 : List (String × Job)) (uid2 jid2 now2 : String) (av2 : Bool)
       (s2 e2 : Option String), ((jobs2.map Prod.fst).Nodup →
       (((submitCompile jobs2 uid2 av2 jid2 s2 e2 now2).jobs).map Prod.fst).Nodup))
  ∧ (∀ (jobs3 : List (String × Job)) (uid3 : String), ((jobs3.map Prod.fst).Nodup →
       ((clearCompileStatus jobs3 uid3).map Prod.fst).Nodup)) := by
  refine ⟨?_, ?_, ?_⟩
  · simp [submitCompile, hj, hs]
  · intro jobs2 uid2 jid2 now2 av2 s2 e2 hnd
    unfold submitCompile
    cases hl : lookupA jobs2 uid2 with
    | none =>
      by_cases hav : av2 = false
      · simpa [hav] using hnd
      · simp only [Bool.not_eq_false] at hav
        simpa [hav] using nodup_keys_setA _ _ _ hnd
    | some ex =>
      by_cases hex : ex.status = "compiling"
      · simpa [hex] using hnd
      · by_cases hav : av2 = false
        · simpa [hex, hav] using hnd
        · simp only [Bool.not_eq_false] at hav
          simpa [hex, hav] using nodup_keys_setA _ _ _ hnd
  · intro jobs3 uid3 hnd
    exact nodup_keys_deleteA _ _ hnd

/-- Witness for C2 at a concrete state: the second submission for
`alice` is rejected with the original job id, the map is untouched and
no run starts. -/
theorem submit_while_running_rejected_witness :
    submitCompile jobsRunning "alice" true "J2" none none "t1" =
      { outcome := SubmitOutcome.alreadyCompiling "J1", jobs := jobsRunning,
        runStarted := false } :=
  (submit_while_running_rejected jobsRunning "alice" "J2" "t1" true none none jobRunning
    (by decide) (by decide)).1

/-! ## Claim C6: unconditional workspace destruction -/

/-- C6: whatever the inputs and whatever the external collaborators do
(any oracle values, hence the success path and every failure path), the
trace of a `compile` run ends with the cleanup of the session
workspace: both the success branch and the catch branch invoke
`this.cleanup(sessionDir)` last. -/
theorem compile_always_cleans_up (env : Env) (sess ts : String) (files : List RemoteFile)
    (startDate endDate : Option String) (isProd : Bool) (musicData : Option String) :
    ((compile env sess ts files startDate endDate isProd musicData).2).getLast? =
      some Effect.cleanup := by
  unfold compile
  cases h : compileBody env sess ts files startDate endDate isProd musicData with
  | mk r tr =>
    cases r with
    | ok v =>
      simp only [← List.cons_append]
      exact List.getLast?_concat _
    | error e =>
      simp only [← List.cons_append]
      exact List.getLast?_concat _

/-! ## Claim C9: a single bound applies no filtering -/

/-- C9: when exactly one of `startDate`, `endDate` is provided (the
other absent or null), the `startDate && endDate` guard is falsy, so
the catalog used by `compile` is the full unfiltered history, exactly
as when neither bound is given. -/
theorem one_sided_range_not_filtered (files : List RemoteFile) (s e : String) :
    compileCatalog files (some s) none = compileCatalog files none none
  ∧ compileCatalog files none (some e) = compileCatalog files none none :=
  ⟨rfl, rfl⟩

/-! ## Claim C5: catalog errors fire before any download -/

/-- C5: when the fetch succeeds, a catalog with zero matching items
makes the run fail with the empty-range error, and a non-empty catalog
below the environment-dependent minimum (7 in production, 2 otherwise)
makes it fail with the insufficient-clips error; in both cases the
trace contains no download effect, so the failure happens before any
item is downloaded. -/
theorem catalog_errors_before_download (env : Env) (files : List RemoteFile)
    (s e : Option String) (isProd : Bool) (music : Option String) (sess ts : String)
    (hf : env.fetchOk = true) :
    (compileCatalog files s e = [] →
      (compile env sess ts files s e isProd music).1 = Except.error CompileError.emptyRange ∧
      downloadNames (compile env sess ts files s e isProd music).2 = [])
  ∧ (compileCatalog files s e ≠ [] →
      (compileCatalog files s e).length < minClips isProd →
      (compile env sess ts files s e isProd music).1 =
        Except.error
          (CompileError.insufficientClips (minClips isProd) (compileCatalog files s e).length) ∧
      downloadNames (compile env sess ts files s e isProd music).2 = []) := by
  constructor
  · intro h
    simp [compile, compileBody, hf, h, downloadNames]
  · intro h1 h2
    have hlen : (compileCatalog files s e).length ≠ 0 := by
      simpa [List.length_eq_zero] using h1
    simp [compile, compileBody, hf, hlen, h2, downloadNames]

/-- Witness for C5: with an empty store listing the catalog is empty
and the run fails with the empty-range error before any download. -/
theorem catalog_errors_before_download_witness :
    (compile envAllOk "S" "T" [] none none false none).1 =
      Except.error CompileError.emptyRange ∧
    downloadNames (compile envAllOk "S" "T" [] none none false none).2 = [] :=
  (catalog_errors_before_download envAllOk [] none none false none "S" "T" rfl).1 rfl

/-! ## Successful-run shape of the engine -/

theorem downloadClipsGo_ok (env : Env) (sess : String)
    (hd : ∀ i, env.downloadOk i = true) (hn : ∀ i, env.normalizeOk i = true) :
    ∀ (clips : List RemoteFile) (i : Nat),
      downloadClipsGo env sess i clips =
        (Except.ok (segNames sess i clips), clipTrace i clips) := by
  intro clips
  induction clips with
  | nil => intro i; rfl
  | cons c rest ih =>
    intro i
    by_cases himg : isImageName c.name
    · simp [downloadClipsGo, hd i, hn i, ih, segNames, clipTrace, himg, Except.map]
    · simp [downloadClipsGo, hd i, hn i, ih, segNames, clipTrace, himg, Except.map]

/-- The shape of a fully successful `compileBody` run. -/
theorem compileBody_ok_run (env : Env) (sess ts : String) (files : List RemoteFile)
    (s e : Option String) (isProd : Bool) (music : Option String)
    (hf : env.fetchOk = true)
    (hd : ∀ i, env.downloadOk i = true) (hn : ∀ i, env.normalizeOk i = true)
    (hc : env.concatOk = true) (hu : env.uploadOk = true)
    (hlen : compileCatalog files s e ≠ [])
    (hmin : ¬ (compileCatalog files s e).length < minClips isProd) :
    compileBody env sess ts files s e isProd music =
      (Except.ok { fileId := env.uploadedId, fileName := outputFileName s e ts,
                   clipCount := (compileCatalog files s e).length },
       Effect.fetchList :: (clipTrace 0 (compileCatalog files s e) ++
         [Effect.writeFileList (entriesOf sess (compileCatalog files s e))] ++
         musicSaveTrace music ++
         [Effect.concat (musicUsed env music) (entriesOf sess (compileCatalog files s e))] ++
         [Effect.upload (outputFileName s e ts)])) := by
  have hlen0 : (compileCatalog files s e).length ≠ 0 := by
    simpa [List.length_eq_zero] using hlen
  have hdl : downloadClips env sess (compileCatalog files s e) =
      (Except.ok (segNames sess 0 (compileCatalog files s e)),
       clipTrace 0 (compileCatalog files s e)) :=
    downloadClipsGo_ok env sess hd hn _ 0
  cases music with
  | none =>
    simp [compileBody, hf, hlen0, hmin, hdl, hc, hu, entriesOf, musicSaveTrace, musicUsed]
  | some m =>
    by_cases hms : env.musicSaveOk
    · simp [compileBody, hf, hlen0, hmin, hdl, hc, hu, entriesOf, musicSaveTrace, musicUsed,
        hms]
    · simp [compileBody, hf, hlen0, hmin, hdl, hc, hu, entriesOf, musicSaveTrace, musicUsed,
        hms]

theorem downloadNames_append (l1 l2 : List Effect) :
    downloadNames (l1 ++ l2) = downloadNames l1 ++ downloadNames l2 := by
  induction l1 with
  | nil => rfl
  | cons a t ih => cases a <;> simp [downloadNames, ih]

theorem downloadNames_download (i : Nat) (n : String) (r : List Effect) :
    downloadNames (Effect.download i n :: r) = (i, n) :: downloadNames r := rfl

theorem downloadNames_convert (i : Nat) (r : List Effect) :
    downloadNames (Effect.convertImage i :: r) = downloadNames r := rfl

theorem downloadNames_normalize (i : Nat) (r : List Effect) :
    downloadNames (Effect.normalize i :: r) = downloadNames r := rfl

theorem concatEntries_download (i : Nat) (n : String) (r : List Effect) :
    concatEntries (Effect.download i n :: r) = concatEntries r := rfl

theorem concatEntries_convert (i : Nat) (r : List Effect) :
    concatEntries (Effect.convertImage i :: r) = concatEntries r := rfl

theorem concatEntries_normalize (i : Nat) (r : List Effect) :
    concatEntries (Effect.normalize i :: r) = concatEntries r := rfl

theorem downloadNames_clipTrace : ∀ (clips : List RemoteFile) (i : Nat),
    downloadNames (clipTrace i clips) = clipNames i clips := by
  intro clips
  induction clips with
  | nil => intro i; rfl
  | cons c rest ih =>
    intro i
    by_cases himg : isImageName c.name
    · rw [clipTrace, if_pos himg, downloadNames_download, downloadNames_convert, ih]
      rfl
    · rw [clipTrace, if_neg himg, downloadNames_download, downloadNames_normalize, ih]
      rfl

theorem concatEntries_append_clipTrace : ∀ (clips : List RemoteFile) (i : Nat)
    (rest : List Effect),
    concatEntries (clipTrace i clips ++ rest) = concatEntries rest := by
  intro clips
  induction clips with
  | nil => intro i rest; rfl
  | cons c t ih =>
    intro i rest
    by_cases himg : isImageName c.name
    · rw [clipTrace, if_pos himg, List.cons_append, List.cons_append,
        concatEntries_download, concatEntries_convert, ih]
    · rw [clipTrace, if_neg himg, List.cons_append, List.cons_append,
        concatEntries_download, concatEntries_normalize, ih]

/-- The trace of a fully successful run of `compile`. -/
theorem compile_ok_trace (env : Env) (sess ts : String) (files : List RemoteFile)
    (s e : Option String) (isProd : Bool) (music : Option String)
    (hf : env.fetchOk = true)
    (hd : ∀ i, env.downloadOk i = true) (hn : ∀ i, env.normalizeOk i = true)
    (hc : env.concatOk = true) (hu : env.uploadOk = true)
    (hlen : compileCatalog files s e ≠ [])
    (hmin : ¬ (compileCatalog files s e).length < minClips isProd) :
    compile env sess ts files s e isProd music =
      (Except.ok { fileId := env.uploadedId, fileName := outputFileName s e ts,
                   clipCount := (compileCatalog files s e).length },
       Effect.mkdirSession :: Effect.fetchList ::
         (clipTrace 0 (compileCatalog files s e) ++
           [Effect.writeFileList (entriesOf sess (compileCatalog files s e))] ++
           musicSaveTrace music ++
           [Effect.concat (musicUsed env music)
             (entriesOf sess (compileCatalog files s e))] ++
           [Effect.upload (outputFileName s e ts)] ++ [Effect.cleanup])) := by
  rw [compile, compileBody_ok_run env sess ts files s e isProd music hf hd hn hc hu hlen hmin]
  simp

/-! ## Claim C10: music persistence failure is not fatal -/

/-- C10: when a music track is supplied but saving it fails (the
helper returns `null`) or the saved file does not exist at
concatenation time, the run does not fail: it takes the no-music
concatenation branch and still completes successfully. -/
theorem music_failure_not_fatal (env : Env) (files : List RemoteFile) (s e : Option String)
    (isProd : Bool) (m sess ts : String)
    (hf : env.fetchOk = true)
    (hd : ∀ i, env.downloadOk i = true) (hn : ∀ i, env.normalizeOk i = true)
    (hc : env.concatOk = true) (hu : env.uploadOk = true)
    (hlen : compileCatalog files s e ≠ [])
    (hmin : ¬ (compileCatalog files s e).length < minClips isProd)
    (hm : env.musicSaveOk = false ∨ env.musicExists = false) :
    (compile env sess ts files s e isProd (some m)).1 =
      Except.ok { fileId := env.uploadedId, fileName := outputFileName s e ts,
                  clipCount := (compileCatalog files s e).length }
  ∧ concatEntries (compile env sess ts files s e isProd (some m)).2 =
      some (false, entriesOf sess (compileCatalog files s e)) := by
  have hrun := compile_ok_trace env sess ts files s e isProd (some m) hf hd hn hc hu hlen hmin
  have hmu : musicUsed env (some m) = false := by
    rcases hm with hm | hm <;> simp [musicUsed, hm]
  rw [hrun]
  refine ⟨rfl, ?_⟩
  simp only [concatEntries, List.append_assoc, List.cons_append]
  rw [concatEntries_append_clipTrace]
  simp [concatEntries, musicSaveTrace, hmu]

/-- Two concrete store files on distinct dates. -/
def fileJan1 : RemoteFile :=
  { id := "a", name := "2024-01-01.mp4", mimeType := "video/mp4",
    modifiedTime := some 100, createdTime := none }

/-- Second concrete store file. -/
def fileJan2 : RemoteFile :=
  { id := "b", name := "2024-01-02.jpg", mimeType := "image/jpeg",
    modifiedTime := some 200, createdTime := none }

/-- An environment in which everything succeeds except saving the
supplied music track. -/
def envMusicSaveFails : Env :=
  { fetchOk := true, downloadOk := fun _ => true, normalizeOk := fun _ => true,
    musicSaveOk := false, musicExists := true, concatOk := true, uploadOk := true,
    uploadedId := "drive-id" }

/-- Witness for C10: with two clips, a supplied music track and a
failing music save, the run completes and concatenates without music. -/
theorem music_failure_not_fatal_witness :
    (compile envMusicSaveFails "S" "T" [fileJan1, fileJan2] none none false (some "MUSIC")).1 =
      Except.ok { fileId := "drive-id", fileName := "365moments-compilation_T.mp4",
                  clipCount := 2 }
  ∧ concatEntries
      (compile envMusicSaveFails "S" "T" [fileJan1, fileJan2] none none false
        (some "MUSIC")).2 =
      some (false, entriesOf "S" (compileCatalog [fileJan1, fileJan2] none none)) :=
  music_failure_not_fatal envMusicSaveFails [fileJan1, fileJan2] none none false "MUSIC"
    "S" "T" rfl (fun _ => rfl) (fun _ => rfl) rfl rfl (by decide) (by decide)
    (Or.inl rfl)

/-! ## Lexicographic-order facts -/

theorem lexLe_refl : ∀ l : List Char, lexLe l l = true := by
  intro l
  induction l with
  | nil => rfl
  | cons a t ih => simp [lexLe, ih]

theorem lexLe_total : ∀ a b : List Char, lexLe a b = true ∨ lexLe b a = true := by
  intro a
  induction a with
  | nil => intro b; left; rfl
  | cons x xs ih =>
    intro b
    cases b with
    | nil => right; rfl
    | cons y ys =>
      by_cases hxy : x = y
      · subst hxy
        rcases ih ys with h | h
        · left; simpa [lexLe] using h
        · right; simpa [lexLe] using h
      · rcases lt_or_gt_of_ne hxy with h | h
        · left; simp [lexLe, hxy, h]
        · right; simp [lexLe, Ne.symm hxy, h, not_lt_of_gt h]

theorem lexLe_trans : ∀ a b c : List Char,
    lexLe a b = true → lexLe b c = true → lexLe a c = true := by
  intro a
  induction a with
  | nil => intro b c _ _; rfl
  | cons x xs ih =>
    intro b c hab hbc
    cases b with
    | nil => simp [lexLe] at hab
    | cons y ys =>
      cases c with
      | nil => simp [lexLe] at hbc
      | cons z zs =>
        by_cases hxy : x = y
        · subst hxy
          by_cases hyz : x = z
          · subst hyz
            simp only [lexLe, if_pos rfl] at hab hbc ⊢
            exact ih ys zs hab hbc
          · simp only [lexLe, if_pos rfl] at hab
            simp only [lexLe, if_neg hyz] at hbc ⊢
            exact hbc
        · simp only [lexLe, if_neg hxy, decide_eq_true_eq] at hab
          by_cases hyz : y = z
          · subst hyz
            simp [lexLe, hxy, hab]
          · simp only [lexLe, if_neg hyz, decide_eq_true_eq] at hbc
            have hxz : x < z := lt_trans hab hbc
            simp [lexLe, ne_of_lt hxz, hxz]

theorem lexLe_take : ∀ (a b : List Char) (k : Nat), lexLe a b = true →
    a.take k = b.take k ∨ lexLt (a.take k) (b.take k) = true := by
  intro a
  induction a with
  | nil =>
    intro b k _
    cases b with
    | nil => left; rfl
    | cons y ys =>
      cases k with
      | zero => left; rfl
      | succ k' => right; simp [lexLt]
  | cons x xs ih =>
    intro b k hab
    cases b with
    | nil => simp [lexLe] at hab
    | cons y ys =>
      cases k with
      | zero => left; rfl
      | succ k' =>
        by_cases hxy : x = y
        · subst hxy
          simp only [lexLe, if_pos rfl] at hab
          rcases ih ys k' hab with h | h
          · left; simp [List.take, h]
          · right; simp [List.take, lexLt, h]
        · simp only [lexLe, if_neg hxy, decide_eq_true_eq] at hab
          right
          simp [List.take, lexLt, hxy, hab]

/-! ## Sorting facts for `sortByName` -/

theorem insertByName_perm (f : RemoteFile) (l : List RemoteFile) :
    List.Perm (insertByName f l) (f :: l) := by
  induction l with
  | nil => exact List.Perm.refl _
  | cons g gs ih =>
    by_cases h : lexLe f.name.toList g.name.toList = true
    · rw [insertByName, if_pos h]
    · rw [insertByName, if_neg h]
      exact (ih.cons g).trans (List.Perm.swap f g gs)

theorem sortByName_perm (l : List RemoteFile) : List.Perm (sortByName l) l := by
  induction l with
  | nil => exact List.Perm.refl _
  | cons f t ih =>
    have : sortByName (f :: t) = insertByName f (sortByName t) := rfl
    rw [this]
    exact (insertByName_perm f (sortByName t)).trans (ih.cons f)

theorem pairwise_insertByName (f : RemoteFile) (l : List RemoteFile)
    (h : List.Pairwise (fun a b => lexLe a.name.toList b.name.toList = true) l) :
    List.Pairwise (fun a b => lexLe a.name.toList b.name.toList = true)
      (insertByName f l) := by
  induction l with
  | nil => simp [insertByName]
  | cons g gs ih =>
    rcases List.pairwise_cons.mp h with ⟨hg, hgs⟩
    by_cases hfg : lexLe f.name.toList g.name.toList = true
    · rw [insertByName, if_pos hfg]
      refine List.pairwise_cons.mpr ⟨?_, h⟩
      intro x hx
      rcases List.mem_cons.mp hx with rfl | hx
      · exact hfg
      · exact lexLe_trans _ _ _ hfg (hg x hx)
    · rw [insertByName, if_neg hfg]
      have hgf : lexLe g.name.toList f.name.toList = true := by
        rcases lexLe_total f.name.toList g.name.toList with hh | hh
        · exact absurd hh hfg
        · exact hh
      refine List.pairwise_cons.mpr ⟨?_, ih hgs⟩
      intro x hx
      have : x ∈ f :: gs := (insertByName_perm f gs).mem_iff.mp hx
      rcases List.mem_cons.mp this with rfl | hx2
      · exact hgf
      · exact hg x hx2

theorem sortByName_sorted (l : List RemoteFile) :
    List.Pairwise (fun a b => lexLe a.name.toList b.name.toList = true) (sortByName l) := by
  induction l with
  | nil => simp [sortByName]
  | cons f t ih =>
    have : sortByName (f :: t) = insertByName f (sortByName t) := rfl
    rw [this]
    exact pairwise_insertByName f (sortByName t) ih
/-! ## Duplicate-resolution facts -/

theorem lookupA_mem {α : Type} : ∀ (m : List (String × α)) (k : String) (v : α),
    lookupA m k = some v → (k, v) ∈ m := by
  intro m
  induction m with
  | nil => intro k v h; simp [lookupA] at h
  | cons p rest ih =>
    intro k v h
    obtain ⟨k₁, w⟩ := p
    by_cases hk : k₁ = k
    · subst hk
      rw [lookupA, if_pos rfl] at h
      cases h
      exact List.mem_cons_self _ _
    · rw [lookupA, if_neg hk] at h
      exact List.mem_cons_of_mem _ (ih k v h)

theorem mem_lookupA {α : Type} : ∀ (m : List (String × α)) (k : String) (v : α),
    (k, v) ∈ m → (m.map Prod.fst).Nodup → lookupA m k = some v := by
  intro m
  induction m with
  | nil => intro k v h _; simp at h
  | cons p rest ih =>
    intro k v h hnd
    obtain ⟨k₁, w⟩ := p
    simp only [List.map_cons, List.nodup_cons] at hnd
    rcases List.mem_cons.mp h with heq | hmem
    · cases heq
      rw [lookupA, if_pos rfl]
    · by_cases hk : k₁ = k
      · subst hk
        exfalso
        exact hnd.1 (List.mem_map.mpr ⟨(k₁, v), hmem, rfl⟩)
      · rw [lookupA, if_neg hk]
        exact ih k v hmem hnd.2

theorem nodup_keys_dedupStep (m : List (String × RemoteFile)) (f : RemoteFile)
    (h : (m.map Prod.fst).Nodup) : ((dedupStep m f).map Prod.fst).Nodup := by
  cases hx : extractDate f.name with
  | none => simpa [dedupStep, hx] using h
  | some key =>
    cases hl : lookupA m key with
    | none => simpa [dedupStep, hx, hl] using nodup_keys_setA m key f h
    | some ex =>
      by_cases hle : effTime ex ≤ effTime f
      · simpa [dedupStep, hx, hl, hle] using nodup_keys_setA m key f h
      · simpa [dedupStep, hx, hl, hle] using h

theorem nodup_keys_dedup : ∀ (files : List RemoteFile) (m : List (String × RemoteFile)),
    (m.map Prod.fst).Nodup → (((files.foldl dedupStep m)).map Prod.fst).Nodup := by
  intro files
  induction files with
  | nil => intro m h; exact h
  | cons f rest ih =>
    intro m h
    exact ih (dedupStep m f) (nodup_keys_dedupStep m f h)

theorem lookupA_dedupStep_eq (m : List (String × RemoteFile)) (f : RemoteFile) (key : String)
    (h : extractDate f.name = some key) :
    lookupA (dedupStep m f) key = latestStep (lookupA m key) f := by
  cases hl : lookupA m key with
  | none => simp [dedupStep, h, hl, latestStep, lookupA_setA_self]
  | some ex =>
    by_cases hle : effTime ex ≤ effTime f
    · simp [dedupStep, h, hl, hle, latestStep, lookupA_setA_self]
    · simp [dedupStep, h, hl, hle, latestStep]

theorem lookupA_dedupStep_ne (m : List (String × RemoteFile)) (f : RemoteFile) (key : String)
    (h : extractDate f.name ≠ some key) :
    lookupA (dedupStep m f) key = lookupA m key := by
  cases hd : extractDate f.name with
  | none => simp [dedupStep, hd]
  | some k' =>
    have hne : key ≠ k' := by
      intro hk; exact h (hd ▸ hk ▸ rfl)
    cases hl : lookupA m k' with
    | none => simp [dedupStep, hd, hl, lookupA_setA_ne m k' key f hne]
    | some ex =>
      by_cases hle : effTime ex ≤ effTime f
      · simp [dedupStep, hd, hl, hle, lookupA_setA_ne m k' key f hne]
      · simp [dedupStep, hd, hl, hle]

theorem lookupA_dedup_fold : ∀ (files : List RemoteFile)
    (m : List (String × RemoteFile)) (key : String),
    lookupA (files.foldl dedupStep m) key =
      (files.filter (fun f => decide (extractDate f.name = some key))).foldl latestStep
        (lookupA m key) := by
  intro files
  induction files with
  | nil => intro m key; rfl
  | cons f rest ih =>
    intro m key
    rw [List.foldl_cons, ih]
    by_cases hd : extractDate f.name = some key
    · rw [List.filter_cons_of_pos (by simpa using hd), List.foldl_cons,
        lookupA_dedupStep_eq m f key hd]
    · rw [List.filter_cons_of_neg (by simpa using hd),
        lookupA_dedupStep_ne m f key hd]

/-! ## Facts about the declarative duplicate policy -/

theorem isLatestKept_mem (l : List RemoteFile) (f : RemoteFile)
    (h : IsLatestKept l f) : f ∈ l := by
  obtain ⟨l₁, l₂, rfl, _, _⟩ := h
  exact List.mem_append.mpr (Or.inr (List.mem_cons_self _ _))

theorem isLatestKept_le (l : List RemoteFile) (f : RemoteFile)
    (h : IsLatestKept l f) : ∀ g ∈ l, effTime g ≤ effTime f := by
  obtain ⟨l₁, l₂, rfl, h1, h2⟩ := h
  intro g hg
  rcases List.mem_append.mp hg with hg | hg
  · exact h1 g hg
  · rcases List.mem_cons.mp hg with rfl | hg
    · exact le_refl _
    · exact le_of_lt (h2 g hg)

theorem isLatestKept_unique (l : List RemoteFile) (f f' : RemoteFile)
    (h : IsLatestKept l f) (h' : IsLatestKept l f') : f = f' := by
  obtain ⟨l₁, l₂, he, c1, c2⟩ := h
  obtain ⟨m₁, m₂, he', d1, d2⟩ := h'
  have heq : l₁ ++ f :: l₂ = m₁ ++ f' :: m₂ := he ▸ he'
  rcases List.append_eq_append_iff.mp heq with ⟨a', ha1, ha2⟩ | ⟨c', hc1, hc2⟩
  · cases a' with
    | nil =>
      simp only [List.append_nil] at ha1
      rw [List.nil_append] at ha2
      exact (List.cons.injEq _ _ _ _ ▸ ha2).1
    | cons x xs =>
      rw [List.cons_append] at ha2
      have hfx : f = x := (List.cons.injEq _ _ _ _ ▸ ha2).1
      have hl₂ : l₂ = xs ++ f' :: m₂ := (List.cons.injEq _ _ _ _ ▸ ha2).2
      have hf'l₂ : f' ∈ l₂ := by
        rw [hl₂]; exact List.mem_append.mpr (Or.inr (List.mem_cons_self _ _))
      have hfm₁ : f ∈ m₁ := by
        rw [ha1, ← hfx]
        exact List.mem_append.mpr (Or.inr (List.mem_cons_self _ _))
      exact absurd (lt_of_le_of_lt (d1 f hfm₁) (c2 f' hf'l₂)) (lt_irrefl _)
  · cases c' with
    | nil =>
      simp only [List.append_nil] at hc1
      rw [List.nil_append] at hc2
      exact ((List.cons.injEq _ _ _ _ ▸ hc2).1).symm
    | cons x xs =>
      rw [List.cons_append] at hc2
      have hfx : f' = x := (List.cons.injEq _ _ _ _ ▸ hc2).1
      have hm₂ : m₂ = xs ++ f :: l₂ := (List.cons.injEq _ _ _ _ ▸ hc2).2
      have hfm₂ : f ∈ m₂ := by
        rw [hm₂]; exact List.mem_append.mpr (Or.inr (List.mem_cons_self _ _))
      have hf'l₁ : f' ∈ l₁ := by
        rw [hc1, ← hfx]
        exact List.mem_append.mpr (Or.inr (List.mem_cons_self _ _))
      exact absurd (lt_of_le_of_lt (c1 f' hf'l₁) (d2 f hfm₂)) (lt_irrefl _)

theorem foldl_latestStep_some : ∀ (l : List RemoteFile) (e : RemoteFile),
    ∃ f, l.foldl latestStep (some e) = some f := by
  intro l
  induction l with
  | nil => intro e; exact ⟨e, rfl⟩
  | cons a t ih =>
    intro e
    rw [List.foldl_cons]
    by_cases hle : effTime e ≤ effTime a
    · rw [latestStep, if_pos hle]; exact ih a
    · rw [latestStep, if_neg hle]; exact ih e

theorem lastMaxFold_eq_none_iff (l : List RemoteFile) :
    lastMaxFold l = none ↔ l = [] := by
  constructor
  · intro h
    cases l with
    | nil => rfl
    | cons c t =>
      obtain ⟨f, hf⟩ := foldl_latestStep_some t c
      rw [lastMaxFold, List.foldl_cons, latestStep] at h
      rw [hf] at h
      cases h
  · intro h; subst h; rfl

theorem lastMaxFold_append (l : List RemoteFile) (a : RemoteFile) :
    lastMaxFold (l ++ [a]) = latestStep (lastMaxFold l) a := by
  rw [lastMaxFold, lastMaxFold, List.foldl_append, List.foldl_cons, List.foldl_nil]

theorem lastMaxFold_iff : ∀ (l : List RemoteFile) (f : RemoteFile),
    lastMaxFold l = some f ↔ IsLatestKept l f := by
  intro l
  induction l using List.reverseRecOn with
  | nil =>
    intro f
    constructor
    · intro h; cases h
    · intro h
      exact absurd (isLatestKept_mem _ _ h) (List.not_mem_nil f)
  | append_singleton l a ih =>
    intro f
    rw [lastMaxFold_append]
    cases hlast : lastMaxFold l with
    | none =>
      have hl : l = [] := (lastMaxFold_eq_none_iff l).mp hlast
      subst hl
      rw [latestStep, List.nil_append]
      have hka : IsLatestKept [a] a := ⟨[], [], rfl, by simp, by simp⟩
      constructor
      · intro h
        cases h
        exact hka
      · intro h
        rw [isLatestKept_unique _ _ _ h hka]
    | some b =>
      have hb : IsLatestKept l b := (ih b).mp hlast
      by_cases hle : effTime b ≤ effTime a
      · rw [latestStep, if_pos hle]
        have hka : IsLatestKept (l ++ [a]) a := by
          refine ⟨l, [], by simp, ?_, by simp⟩
          intro g hg
          exact le_trans (isLatestKept_le l b hb g hg) hle
        constructor
        · intro h; cases h; exact hka
        · intro h; rw [isLatestKept_unique _ _ _ h hka]
      · rw [latestStep, if_neg hle]
        have halt : effTime a < effTime b := lt_of_not_le hle
        have hkb : IsLatestKept (l ++ [a]) b := by
          obtain ⟨l₁, l₂, rfl, h1, h2⟩ := hb
          refine ⟨l₁, l₂ ++ [a], by simp, h1, ?_⟩
          intro g hg
          rcases List.mem_append.mp hg with hg | hg
          · exact h2 g hg
          · rcases List.mem_singleton.mp hg with rfl
            exact halt
        constructor
        · intro h; cases h; exact hkb
        · intro h; rw [isLatestKept_unique _ _ _ h hkb]

/-! ## Characterisation of the catalog contents -/

theorem fetchClipsList_eq (files : List RemoteFile) :
    fetchClipsList files =
      sortByName (((files.filter (fun f => validClipName f.name)).foldl
        dedupStep []).map Prod.snd) := rfl

theorem nodup_keys_dedup_nil (files : List RemoteFile) :
    ((((files.filter (fun f => validClipName f.name)).foldl dedupStep
      [])).map Prod.fst).Nodup :=
  nodup_keys_dedup _ [] (by simp)

theorem lookupA_dedup_groupOf (files : List RemoteFile) (d : String) :
    lookupA ((files.filter (fun f => validClipName f.name)).foldl dedupStep []) d =
      lastMaxFold (groupOf files d) := by
  rw [lookupA_dedup_fold]
  rfl

theorem dedup_entry_date (files : List RemoteFile) (k : String) (v : RemoteFile)
    (hmem : (k, v) ∈ (files.filter (fun f => validClipName f.name)).foldl dedupStep []) :
    extractDate v.name = some k ∧ IsLatestKept (groupOf files k) v := by
  have hlook := mem_lookupA _ k v hmem (nodup_keys_dedup_nil files)
  rw [lookupA_dedup_groupOf] at hlook
  have hkept := (lastMaxFold_iff _ v).mp hlook
  refine ⟨?_, hkept⟩
  have hv := List.of_mem_filter (isLatestKept_mem _ _ hkept)
  simpa using hv

theorem mem_fetchClipsList_iff (files : List RemoteFile) (f : RemoteFile) :
    f ∈ fetchClipsList files ↔
      ∃ d, extractDate f.name = some d ∧ IsLatestKept (groupOf files d) f := by
  rw [fetchClipsList_eq]
  constructor
  · intro h
    have h2 : f ∈ ((files.filter (fun f => validClipName f.name)).foldl
        dedupStep []).map Prod.snd := (sortByName_perm _).subset h
    rcases List.mem_map.mp h2 with ⟨⟨k, v⟩, hmem, hv⟩
    cases hv
    obtain ⟨hdate, hkept⟩ := dedup_entry_date files k _ hmem
    exact ⟨k, hdate, hkept⟩
  · rintro ⟨d, hdate, hkept⟩
    have hfold : lastMaxFold (groupOf files d) = some f := (lastMaxFold_iff _ f).mpr hkept
    have hlook : lookupA ((files.filter (fun f => validClipName f.name)).foldl
        dedupStep []) d = some f := by
      rw [lookupA_dedup_groupOf]; exact hfold
    have hmem := lookupA_mem _ _ _ hlook
    exact (sortByName_perm _).mem_iff.mpr (List.mem_map.mpr ⟨(d, f), hmem, rfl⟩)

theorem fetch_pairwise_ne (files : List RemoteFile) :
    List.Pairwise (fun a b => extractDate a.name ≠ extractDate b.name)
      (fetchClipsList files) := by
  have hnd := nodup_keys_dedup_nil files
  have hpw : List.Pairwise (fun p q : String × RemoteFile => p.1 ≠ q.1)
      ((files.filter (fun f => validClipName f.name)).foldl dedupStep []) :=
    List.pairwise_map.mp hnd
  have hpw2 : List.Pairwise
      (fun p q : String × RemoteFile => extractDate p.2.name ≠ extractDate q.2.name)
      ((files.filter (fun f => validClipName f.name)).foldl dedupStep []) := by
    refine List.Pairwise.imp_of_mem ?_ hpw
    intro p q hp hq hne
    obtain ⟨hdp, _⟩ := dedup_entry_date files p.1 p.2 (by simpa using hp)
    obtain ⟨hdq, _⟩ := dedup_entry_date files q.1 q.2 (by simpa using hq)
    rw [hdp, hdq]
    intro hc
    injection hc with hc
    exact hne hc
  have hvals : List.Pairwise (fun a b : RemoteFile =>
      extractDate a.name ≠ extractDate b.name)
      (((files.filter (fun f => validClipName f.name)).foldl dedupStep []).map
        Prod.snd) := List.pairwise_map.mpr hpw2
  rw [fetchClipsList_eq]
  exact ((sortByName_perm _).pairwise_iff (fun hh hc => hh hc.symm)).mpr hvals

theorem extractDate_toList (n d : String) (h : extractDate n = some d) :
    d.toList = n.toList.take 10 := by
  simp only [extractDate] at h
  by_cases hs : dateShape (n.toList.take 10)
  · rw [if_pos hs] at h
    injection h with h2
    rw [← h2]
    rfl
  · rw [if_neg hs] at h
    cases h

theorem string_toList_inj (a b : String) (h : a.toList = b.toList) : a = b := by
  obtain ⟨da⟩ := a
  obtain ⟨db⟩ := b
  simp only [String.toList] at h
  rw [h]

theorem fetchClipsList_dates_sorted (files : List RemoteFile) :
    List.Pairwise dateLtProp (fetchClipsList files) := by
  have hle : List.Pairwise
      (fun a b : RemoteFile => lexLe a.name.toList b.name.toList = true)
      (fetchClipsList files) := sortByName_sorted _
  have hne := fetch_pairwise_ne files
  have hand := hle.and hne
  refine hand.imp ?_
  intro a b hab
  obtain ⟨hab, hneq⟩ := hab
  intro da db hda hdb
  have hdane : da ≠ db := by
    intro hc
    exact hneq (by rw [hda, hdb, hc])
  rcases lexLe_take a.name.toList b.name.toList 10 hab with h | h
  · exfalso
    apply hdane
    apply string_toList_inj
    rw [extractDate_toList _ _ hda, extractDate_toList _ _ hdb, h]
  · rw [extractDate_toList _ _ hda, extractDate_toList _ _ hdb]
    exact h

theorem catalog_dates_sorted (files : List RemoteFile) (s e : Option String) :
    List.Pairwise dateLtProp (compileCatalog files s e) := by
  have hbase := fetchClipsList_dates_sorted files
  cases s with
  | none => exact hbase
  | some s' =>
    cases e with
    | none => exact hbase
    | some e' =>
      by_cases hse : (s'.isEmpty || e'.isEmpty) = true
      · simpa [compileCatalog, hse] using hbase
      · simp only [compileCatalog]
        rw [if_neg (by simpa using hse)]
        exact hbase.sublist (List.filter_sublist _)

/-! ## Claim C1: one item per date, latest modification wins -/

/-- C1: for every store listing, the catalog built by `fetchClipsList`
has pairwise distinct extracted dates (at most one item per date), and
an item belongs to the catalog exactly when it is the survivor of its
date group: its timestamp is `≥` every earlier file of the group and
`>` every later one, so duplicates are resolved towards the latest
modification timestamp with exact ties kept from the later list
position.  `fetchClipsList` is a total function, so discarded
duplicates raise no error. -/
theorem catalog_unique_latest_per_date (files : List RemoteFile) :
    List.Pairwise (fun a b => extractDate a.name ≠ extractDate b.name)
      (fetchClipsList files)
  ∧ ∀ f, (f ∈ fetchClipsList files ↔
      ∃ d, extractDate f.name = some d ∧ IsLatestKept (groupOf files d) f) :=
  ⟨fetch_pairwise_ne files, fun f => mem_fetchClipsList_iff files f⟩

/-! ## Claim C4: range filtering and date-sorted output -/

/-- C4: when both bounds are provided (as non-empty date strings, the
JS-truthy case in which the source filters), the catalog used for the
compilation is strictly ascending in the zero-padded ISO date order,
every item has an extractable date, and no date lies outside the
inclusive `[startDate, endDate]` range. -/
theorem range_filter_catalog (files : List RemoteFile) (s e : String)
    (hs : s.isEmpty = false) (he : e.isEmpty = false) :
    List.Pairwise dateLtProp (compileCatalog files (some s) (some e))
  ∧ ∀ f ∈ compileCatalog files (some s) (some e),
      ∃ d, extractDate f.name = some d ∧
        lexLe s.toList d.toList = true ∧ lexLe d.toList e.toList = true := by
  refine ⟨catalog_dates_sorted files (some s) (some e), ?_⟩
  intro f hf
  have hcat : compileCatalog files (some s) (some e) =
      (fetchClipsList files).filter (fun c =>
        match extractDate c.name with
        | none => false
        | some d => lexLe s.toList d.toList && lexLe d.toList e.toList) := by
    simp only [compileCatalog]
    rw [if_neg (by simp [hs, he])]
  rw [hcat] at hf
  have hp := List.of_mem_filter hf
  cases hd : extractDate f.name with
  | none => simp [hd] at hp
  | some d =>
    refine ⟨d, rfl, ?_⟩
    simpa [hd, Bool.and_eq_true] using hp

/-- Concrete third file sharing the date of `fileJan1` but newer. -/
def fileJan1Newer : RemoteFile :=
  { id := "c", name := "2024-01-01.jpg", mimeType := "image/jpeg",
    modifiedTime := some 300, createdTime := none }

/-- Witness for C4 on a concrete listing and a concrete non-empty
range. -/
theorem range_filter_catalog_witness :
    List.Pairwise dateLtProp
      (compileCatalog [fileJan1, fileJan2, fileJan1Newer] (some "2024-01-01")
        (some "2024-12-31"))
  ∧ ∀ f ∈ compileCatalog [fileJan1, fileJan2, fileJan1Newer] (some "2024-01-01")
        (some "2024-12-31"),
      ∃ d, extractDate f.name = some d ∧
        lexLe "2024-01-01".toList d.toList = true ∧
        lexLe d.toList "2024-12-31".toList = true :=
  range_filter_catalog [fileJan1, fileJan2, fileJan1Newer] "2024-01-01" "2024-12-31"
    rfl rfl

/-! ## Claim C8: end-to-end ordering of a successful run -/

theorem downloadNames_cons_skip (a : Effect) (r : List Effect)
    (h : ∀ i n, a ≠ Effect.download i n) :
    downloadNames (a :: r) = downloadNames r := by
  cases a with
  | download i n => exact absurd rfl (h i n)
  | mkdirSession => rfl
  | fetchList => rfl
  | convertImage i => rfl
  | normalize i => rfl
  | writeFileList es => rfl
  | saveMusic => rfl
  | concat u es => rfl
  | upload n => rfl
  | cleanup => rfl

theorem downloadNames_singleton_skip (a : Effect)
    (h : ∀ i n, a ≠ Effect.download i n) : downloadNames [a] = [] := by
  rw [downloadNames_cons_skip a [] h]
  rfl

theorem segNames_get (sess : String) : ∀ (l : List RemoteFile) (k n : Nat),
    (segNames sess k l).get? n = (l.get? n).map (fun c => localSegName sess (k + n) c) := by
  intro l
  induction l with
  | nil => intro k n; simp [segNames]
  | cons c rest ih =>
    intro k n
    cases n with
    | zero => simp [segNames]
    | succ n' =>
      have : k + (n' + 1) = (k + 1) + n' := by omega
      simp only [segNames, List.get?_cons_succ, ih (k + 1) n', this]

/-- C8: under a fully successful environment, every catalog item is
downloaded in catalog position order (which is strictly ascending date
order), the file list handed to the concatenation lists exactly the
normalized segment paths in the same order, and the `i`-th file-list
segment is the normalized output of the `i`-th catalog item. -/
theorem segments_in_catalog_order (env : Env) (sess ts : String)
    (files : List RemoteFile) (s e : Option String) (isProd : Bool)
    (music : Option String)
    (hf : env.fetchOk = true)
    (hd : ∀ i, env.downloadOk i = true) (hn : ∀ i, env.normalizeOk i = true)
    (hc : env.concatOk = true) (hu : env.uploadOk = true)
    (hlen : compileCatalog files s e ≠ [])
    (hmin : ¬ (compileCatalog files s e).length < minClips isProd) :
    List.Pairwise dateLtProp (compileCatalog files s e)
  ∧ downloadNames (compile env sess ts files s e isProd music).2 =
      clipNames 0 (compileCatalog files s e)
  ∧ concatEntries (compile env sess ts files s e isProd music).2 =
      some (musicUsed env music, entriesOf sess (compileCatalog files s e))
  ∧ entriesOf sess (compileCatalog files s e) =
      (segNames sess 0 (compileCatalog files s e)).map fileEntry
  ∧ ∀ n, (segNames sess 0 (compileCatalog files s e)).get? n =
      ((compileCatalog files s e).get? n).map (fun c => localSegName sess n c) := by
  have hrun := compile_ok_trace env sess ts files s e isProd music hf hd hn hc hu hlen hmin
  refine ⟨catalog_dates_sorted files s e, ?_, ?_, rfl, ?_⟩
  · rw [hrun]
    simp only [downloadNames_cons_skip Effect.mkdirSession _ (by intro i n h; cases h),
      downloadNames_cons_skip Effect.fetchList _ (by intro i n h; cases h),
      downloadNames_append, downloadNames_clipTrace]
    cases music with
    | none =>
      simp [downloadNames, musicSaveTrace]
    | some m =>
      simp [downloadNames, musicSaveTrace]
  · rw [hrun]
    simp only [concatEntries, List.append_assoc, List.cons_append]
    rw [concatEntries_append_clipTrace]
    cases music with
    | none => simp [concatEntries, musicSaveTrace]
    | some m => simp [concatEntries, musicSaveTrace]
  · intro n
    have := segNames_get sess (compileCatalog files s e) 0 n
    simpa using this

/-- Witness for C8 on a concrete two-item catalog. -/
theorem segments_in_catalog_order_witness :
    List.Pairwise dateLtProp (compileCatalog [fileJan1, fileJan2] none none)
  ∧ downloadNames (compile envAllOk "S" "T" [fileJan1, fileJan2] none none false none).2 =
      clipNames 0 (compileCatalog [fileJan1, fileJan2] none none)
  ∧ concatEntries (compile envAllOk "S" "T" [fileJan1, fileJan2] none none false none).2 =
      some (musicUsed envAllOk none, entriesOf "S" (compileCatalog [fileJan1, fileJan2] none none))
  ∧ entriesOf "S" (compileCatalog [fileJan1, fileJan2] none none) =
      (segNames "S" 0 (compileCatalog [fileJan1, fileJan2] none none)).map fileEntry
  ∧ ∀ n, (segNames "S" 0 (compileCatalog [fileJan1, fileJan2] none none)).get? n =
      ((compileCatalog [fileJan1, fileJan2] none none).get? n).map
        (fun c => localSegName "S" n c) :=
  segments_in_catalog_order envAllOk "S" "T" [fileJan1, fileJan2] none none false none
    rfl (fun _ => rfl) (fun _ => rfl) rfl rfl (by decide) (by decide)

/-! ## Claims C7 and C3: ffmpeg invocations -/

theorem noDash_ne (s t : String) (hs : startsDash s = false)
    (ht : startsDash t = true) : s ≠ t := by
  intro h
  rw [h] at hs
  exact Bool.noConfusion (hs.symm.trans ht)

theorem parseScaleDims_setsar :
    parseScaleDims (scalePadFilter 1920 1080 ++ ",setsar=1") = some (1920, 1080) := by
  decide

theorem parseScaleDims_noSetsar :
    parseScaleDims (scalePadFilter 1920 1080) = some (1920, 1080) := by decide

theorem parseNatStr_one : parseNatStr "1" = some 1 := by decide

theorem parseNatStr_thirty : parseNatStr "30" = some 30 := by decide

/-- C7: assembling with a supplied and existing music track maps the
output video from the concatenated clips (`0:v`) and the audio
exclusively from the music input (`1:a`), feeds the music through an
indefinite `-stream_loop -1` and stops at the shorter stream
(`-shortest`), i.e. when the video ends; without a music track (or when
the saved file is missing) the only input is the concat list and no
mapping is forced, so the output audio comes from the segments' own
tracks. -/
theorem concat_music_audio_policy (lf out mp : String)
    (hlf : startsDash lf = false) (hout : startsDash out = false)
    (hmp : startsDash mp = false) :
    (flagValues (concatenateVideosArgs lf out (some mp) true) "-map" = ["0:v", "1:a"]
     ∧ flagValues (concatenateVideosArgs lf out (some mp) true) "-i" = [lf, mp]
     ∧ List.IsInfix ["-stream_loop", "-1", "-i", mp]
         (concatenateVideosArgs lf out (some mp) true)
     ∧ hasFlag (concatenateVideosArgs lf out (some mp) true) "-shortest" = true)
  ∧ (flagValues (concatenateVideosArgs lf out none true) "-map" = []
     ∧ flagValues (concatenateVideosArgs lf out none true) "-i" = [lf])
  ∧ (flagValues (concatenateVideosArgs lf out (some mp) false) "-map" = []
     ∧ flagValues (concatenateVideosArgs lf out (some mp) false) "-i" = [lf]) := by
  have hvfd : startsDash (scalePadFilter 1920 1080 ++ ",setsar=1") = false := by decide
  refine ⟨⟨?_, ?_, ?_, ?_⟩, ⟨?_, ?_⟩, ⟨?_, ?_⟩⟩
  · simp [concatenateVideosArgs, flagValues, noDash_ne lf "-map" hlf (by decide),
      noDash_ne out "-map" hout (by decide), noDash_ne mp "-map" hmp (by decide),
      noDash_ne _ "-map" hvfd (by decide)]
  · simp [concatenateVideosArgs, flagValues, noDash_ne lf "-i" hlf (by decide),
      noDash_ne out "-i" hout (by decide), noDash_ne mp "-i" hmp (by decide),
      noDash_ne _ "-i" hvfd (by decide)]
  · exact ⟨["-f", "concat", "-safe", "0", "-i", lf],
      ["-vf", scalePadFilter 1920 1080 ++ ",setsar=1", "-map", "0:v", "-map", "1:a",
       "-c:v", "libx264", "-preset", "fast", "-crf", "23", "-c:a", "aac", "-b:a",
       "192k", "-shortest", "-movflags", "+faststart", "-y", out], rfl⟩
  · simp [concatenateVideosArgs, hasFlag, noDash_ne lf "-shortest" hlf (by decide),
      noDash_ne out "-shortest" hout (by decide),
      noDash_ne mp "-shortest" hmp (by decide),
      noDash_ne _ "-shortest" hvfd (by decide)]
  · simp [concatenateVideosArgs, concatNoMusicArgs, flagValues,
      noDash_ne lf "-map" hlf (by decide), noDash_ne out "-map" hout (by decide),
      noDash_ne _ "-map" hvfd (by decide)]
  · simp [concatenateVideosArgs, concatNoMusicArgs, flagValues,
      noDash_ne lf "-i" hlf (by decide), noDash_ne out "-i" hout (by decide),
      noDash_ne _ "-i" hvfd (by decide)]
  · simp [concatenateVideosArgs, concatNoMusicArgs, flagValues,
      noDash_ne lf "-map" hlf (by decide), noDash_ne out "-map" hout (by decide),
      noDash_ne _ "-map" hvfd (by decide)]
  · simp [concatenateVideosArgs, concatNoMusicArgs, flagValues,
      noDash_ne lf "-i" hlf (by decide), noDash_ne out "-i" hout (by decide),
      noDash_ne _ "-i" hvfd (by decide)]

/-- Witness for C7 at concrete paths. -/
theorem concat_music_audio_policy_witness :
    (flagValues (concatenateVideosArgs "S/filelist.txt" "S/out.mp4" (some "S/music.mp3")
        true) "-map" = ["0:v", "1:a"]
     ∧ flagValues (concatenateVideosArgs "S/filelist.txt" "S/out.mp4" (some "S/music.mp3")
        true) "-i" = ["S/filelist.txt", "S/music.mp3"]
     ∧ List.IsInfix ["-stream_loop", "-1", "-i", "S/music.mp3"]
         (concatenateVideosArgs "S/filelist.txt" "S/out.mp4" (some "S/music.mp3") true)
     ∧ hasFlag (concatenateVideosArgs "S/filelist.txt" "S/out.mp4" (some "S/music.mp3")
        true) "-shortest" = true)
  ∧ (flagValues (concatenateVideosArgs "S/filelist.txt" "S/out.mp4" none true)
        "-map" = []
     ∧ flagValues (concatenateVideosArgs "S/filelist.txt" "S/out.mp4" none true)
        "-i" = ["S/filelist.txt"])
  ∧ (flagValues (concatenateVideosArgs "S/filelist.txt" "S/out.mp4" (some "S/music.mp3")
        false) "-map" = []
     ∧ flagValues (concatenateVideosArgs "S/filelist.txt" "S/out.mp4" (some "S/music.mp3")
        false) "-i" = ["S/filelist.txt"]) :=
  concat_music_audio_policy "S/filelist.txt" "S/out.mp4" "S/music.mp3" rfl rfl rfl

/-- C3 counterexample: converting an image (a source with no audio
stream) yields a segment with no audio track — the claimed silent
audio track is never synthesized (the invocation has no `lavfi` null
source and no audio-generating flag), contradicting the claim that
every produced segment carries an audio track. -/
theorem image_segment_has_no_audio :
    ¬ ((interpFfmpeg
        (convertImageArgs "S/0001-2024-01-02.jpg" "S/0001-2024-01-02.mp4" 1920 1080)
        { duration := 0, width := 800, height := 600, fps := 0, pixFmt := "rgb24",
          hasAudio := false }).hasAudio = true) := by
  decide

/-- C3 (amended): normalizing a video of length at least 1 second and
converting an image both produce a segment of exactly 1 second at
1920×1080, 30 fps, yuv420p; the video path keeps an audio track exactly
when the source has one (re-encoded to AAC), while the image path
produces a segment with no audio track — no silent track is added, so
stream structure is uniform only across segments whose sources agree on
audio presence. -/
theorem normalize_output_properties (inp outp : String) (src : MediaProps)
    (h1 : startsDash inp = false) (h2 : startsDash outp = false)
    (h3 : inp ≠ "lavfi") (h4 : outp ≠ "lavfi")
    (hd : 1 ≤ src.duration) :
    interpFfmpeg (normalizeVideoArgs inp outp 1920 1080) src =
      { duration := 1, width := 1920, height := 1080, fps := 30,
        pixFmt := "yuv420p", hasAudio := src.hasAudio }
  ∧ ∀ isrc : MediaProps, isrc.hasAudio = false →
      interpFfmpeg (convertImageArgs inp outp 1920 1080) isrc =
        { duration := 1, width := 1920, height := 1080, fps := 30,
          pixFmt := "yuv420p", hasAudio := false } := by
  have hvfd : startsDash (scalePadFilter 1920 1080 ++ ",setsar=1") = false := by decide
  have hvfd2 : startsDash (scalePadFilter 1920 1080) = false := by decide
  have hvfl : (scalePadFilter 1920 1080 ++ ",setsar=1") ≠ "lavfi" := by decide
  have hvfl2 : scalePadFilter 1920 1080 ≠ "lavfi" := by decide
  constructor
  · have ht : argValue (normalizeVideoArgs inp outp 1920 1080) "-t" = some "1" := by
      simp [normalizeVideoArgs, argValue, noDash_ne inp "-t" h1 (by decide)]
    have hvf : argValue (normalizeVideoArgs inp outp 1920 1080) "-vf" =
        some (scalePadFilter 1920 1080 ++ ",setsar=1") := by
      simp [normalizeVideoArgs, argValue, noDash_ne inp "-vf" h1 (by decide)]
    have hr : argValue (normalizeVideoArgs inp outp 1920 1080) "-r" = some "30" := by
      simp [normalizeVideoArgs, argValue, noDash_ne inp "-r" h1 (by decide),
        noDash_ne _ "-r" hvfd (by decide)]
    have hp : argValue (normalizeVideoArgs inp outp 1920 1080) "-pix_fmt" =
        some "yuv420p" := by
      simp [normalizeVideoArgs, argValue, noDash_ne inp "-pix_fmt" h1 (by decide),
        noDash_ne _ "-pix_fmt" hvfd (by decide)]
    have hloop : hasFlag (normalizeVideoArgs inp outp 1920 1080) "-loop" = false := by
      simp [normalizeVideoArgs, hasFlag, noDash_ne inp "-loop" h1 (by decide),
        noDash_ne outp "-loop" h2 (by decide), noDash_ne _ "-loop" hvfd (by decide)]
    have han : hasFlag (normalizeVideoArgs inp outp 1920 1080) "-an" = false := by
      simp [normalizeVideoArgs, hasFlag, noDash_ne inp "-an" h1 (by decide),
        noDash_ne outp "-an" h2 (by decide), noDash_ne _ "-an" hvfd (by decide)]
    have hlav : hasFlag (normalizeVideoArgs inp outp 1920 1080) "lavfi" = false := by
      simp [normalizeVideoArgs, hasFlag, h3, h4, hvfl]
    rw [interpFfmpeg, ht, hvf, hr, hp, hloop, han, hlav]
    simp [parseScaleDims_setsar, parseNatStr_one, parseNatStr_thirty,
      Nat.min_eq_right hd]
  · intro isrc hia
    have ht : argValue (convertImageArgs inp outp 1920 1080) "-t" = some "1" := by
      simp [convertImageArgs, argValue, noDash_ne inp "-t" h1 (by decide)]
    have hvf : argValue (convertImageArgs inp outp 1920 1080) "-vf" =
        some (scalePadFilter 1920 1080) := by
      simp [convertImageArgs, argValue, noDash_ne inp "-vf" h1 (by decide)]
    have hr : argValue (convertImageArgs inp outp 1920 1080) "-r" = some "30" := by
      simp [convertImageArgs, argValue, noDash_ne inp "-r" h1 (by decide),
        noDash_ne _ "-r" hvfd2 (by decide)]
    have hp : argValue (convertImageArgs inp outp 1920 1080) "-pix_fmt" =
        some "yuv420p" := by
      simp [convertImageArgs, argValue, noDash_ne inp "-pix_fmt" h1 (by decide)]
    have hloop : hasFlag (convertImageArgs inp outp 1920 1080) "-loop" = true := by
      simp [convertImageArgs, hasFlag]
    have han : hasFlag (convertImageArgs inp outp 1920 1080) "-an" = false := by
      simp [convertImageArgs, hasFlag, noDash_ne inp "-an" h1 (by decide),
        noDash_ne outp "-an" h2 (by decide), noDash_ne _ "-an" hvfd2 (by decide)]
    have hlav : hasFlag (convertImageArgs inp outp 1920 1080) "lavfi" = false := by
      simp [convertImageArgs, hasFlag, h3, h4, hvfl2]
    rw [interpFfmpeg, ht, hvf, hr, hp, hloop, han, hlav]
    simp [parseScaleDims_noSetsar, parseNatStr_one, parseNatStr_thirty, hia]

/-- Witness for the amended C3 at concrete paths and a concrete
2-second video source with audio. -/
theorem normalize_output_properties_witness :
    interpFfmpeg (normalizeVideoArgs "S/0000-2024-01-01.mp4"
        "S/0000-2024-01-01-norm.mp4" 1920 1080)
      { duration := 2, width := 640, height := 480, fps := 24, pixFmt := "nv12",
        hasAudio := true } =
      { duration := 1, width := 1920, height := 1080, fps := 30,
        pixFmt := "yuv420p", hasAudio := true }
  ∧ ∀ isrc : MediaProps, isrc.hasAudio = false →
      interpFfmpeg (convertImageArgs "S/0000-2024-01-01.mp4"
          "S/0000-2024-01-01-norm.mp4" 1920 1080) isrc =
        { duration := 1, width := 1920, height := 1080, fps := 30,
          pixFmt := "yuv420p", hasAudio := false } :=
  normalize_output_properties "S/0000-2024-01-01.mp4" "S/0000-2024-01-01-norm.mp4"
    { duration := 2, width := 640, height := 480, fps := 24, pixFmt := "nv12",
      hasAudio := true }
    rfl rfl (by decide) (by decide) (by decide)
